import Mathlib

/-!
Verification of the dex-parser decoding core (`src/encoded_item.rs`,
`src/annotation.rs`, `src/cache.rs`, `src/error.rs`) via a shallow
embedding.  Byte buffers are `List Nat` (each element a byte value);
fallible decoders return `Except Error (value × bytesConsumed)`,
mirroring the `TryFromCtx` implementations which return
`Result<(Self, usize)>`.
-/

set_option maxRecDepth 4000

namespace DexParser

/-- The error type of `src/error.rs`.  `IOErr` stands for `Error::IO`
and `Scroll` for `Error::Scroll` (payloads of the wrapped foreign
errors are irrelevant to the properties proved here and are dropped). -/
inductive Error where
  | MalFormed (msg : String)
  | IOErr
  | InvalidId (msg : String)
  | Scroll
  | BadOffset (off : Nat) (msg : String)
deriving DecidableEq, Repr

/-- Modelled from the spec: the unsigned varint (ULEB128) codec consumed
from the `scroll` crate (`Uleb128::read`), which is not under `src/`.
Bytes are consumed low-group-first, each contributing its low 7 bits;
a byte with the high bit clear terminates.  Returns the value and the
count of bytes consumed; `none` when the stream is exhausted before a
terminal byte. -/
def ulebRead : List Nat → Option (Nat × Nat)
  | [] => none
  | b :: rest =>
    if b < 128 then some (b, 1)
    else
      match ulebRead rest with
      | some (v, n) => some (b % 128 + v * 128, n + 1)
      | none => none

/-- Modelled from the spec: the signed varint (SLEB128) codec consumed
from the `scroll` crate (`Sleb128::read`).  Identical grouping to
ULEB128, but bit 6 of the terminal byte sign-extends the value. -/
def slebRead : List Nat → Option (Int × Nat)
  | [] => none
  | b :: rest =>
    if b < 128 then
      some (if b % 128 ≥ 64 then (b % 64 : Int) - 64 else (b % 64 : Int), 1)
    else
      match slebRead rest with
      | some (v, n) => some ((b % 128 : Int) + v * 128, n + 1)
      | none => none

/-- `Uleb128::read` as used behind `?`: a failed read surfaces as
`Error::Scroll` through the `From<scroll::Error>` impl in `src/error.rs`. -/
def ulebReadE (src : List Nat) : Except Error (Nat × Nat) :=
  match ulebRead src with
  | some r => .ok r
  | none => .error .Scroll

/-- `Sleb128::read` behind `?`, failures surfacing as `Error::Scroll`. -/
def slebReadE (src : List Nat) : Except Error (Int × Nat) :=
  match slebRead src with
  | some r => .ok r
  | none => .error .Scroll

/-- The wrapping `as uint` cast (u64 → u32) that the source applies to
ULEB128-decoded index values before use: `type_id as uint`
(`src/encoded_item.rs`, line 182), `type_idx as TypeId`
(`src/annotation.rs`, line 55) and `name_idx as StringId`
(`src/annotation.rs`, line 85) — the decoded value is truncated
modulo 2^32. -/
def uintCast (n : Nat) : Nat := n % 4294967296

/-- `ExceptionType` from `src/code.rs` (referenced by
`src/encoded_item.rs`): a typed exception carries the resolved type
(here its descriptor string), `BaseException` matches any exception. -/
inductive ExceptionType where
  | Ty (t : String)
  | BaseException
deriving DecidableEq, Repr

/-- `CatchHandler` from `src/code.rs`: exception kind plus code address. -/
structure CatchHandler where
  exception : ExceptionType
  addr : Nat
deriving DecidableEq, Repr

/-- `Visibility` from `src/annotation.rs`. -/
inductive Visibility where
  | Build
  | Runtime
  | System
deriving DecidableEq, Repr

/-- `AnnotationElement` (`src/annotation.rs`): resolved name plus the
externally decoded tagged value, whose type `V` is opaque to this core. -/
structure AnnotationElement (V : Type) where
  name : String
  value : V
deriving DecidableEq, Repr

/-- `EncodedAnnotation` (`src/annotation.rs`): resolved type plus elements. -/
structure EncodedAnnotation (V : Type) where
  jtype : String
  elements : List (AnnotationElement V)
deriving DecidableEq, Repr

/-- `AnnotationItem` (`src/annotation.rs`). -/
structure AnnotationItem (V : Type) where
  visibility : Visibility
  annotation : EncodedAnnotation V
deriving DecidableEq, Repr

/-- `AnnotationSetItem` (`src/annotation.rs`). -/
structure AnnotationSetItem (V : Type) where
  annotations : List (AnnotationItem V)
deriving DecidableEq, Repr

/-- `AnnotationSetRefList` (`src/annotation.rs`). -/
structure AnnotationSetRefList (V : Type) where
  annotation_set_list : List (AnnotationSetItem V)
deriving DecidableEq, Repr

/-- The decoding context `&Dex<S>` as seen by the decoders under `src/`.
`types` and `strings` model the identifier tables; `valueDecode` is the
opaque tagged-value decode hook for annotation element payloads;
`setItemAt` and `setRefListAt` model the outcome of resolving a nonzero
byte offset through the buffer and cache (the resolution code lives in
the crate root, outside `src/`). -/
structure Dex (V : Type) where
  types : List String
  strings : List String
  valueDecode : List Nat → Except Error (V × Nat)
  setItemAt : Nat → Except Error (AnnotationSetItem V)
  setRefListAt : Nat → Except Error (AnnotationSetRefList V)

/-- Modelled from the spec: `Dex::get_type` (crate root, not under
`src/`) — "`resolve_type(index) -> type reference`, fails InvalidIndex
out of range". -/
def Dex.getType {V : Type} (d : Dex V) (i : Nat) : Except Error String :=
  match d.types.get? i with
  | some t => .ok t
  | none => .error (.InvalidId "Invalid type index")

/-- Modelled from the spec: `Dex::get_string` (crate root, not under
`src/`) — "`resolve_string(index) -> string`, fails InvalidIndex out of
range". -/
def Dex.getString {V : Type} (d : Dex V) (i : Nat) : Except Error String :=
  match d.strings.get? i with
  | some s => .ok s
  | none => .error (.InvalidId "Invalid string index")

/-- Modelled from the spec: `Dex::get_annotation_set_item` (crate root,
not under `src/`) — "class_annotations_offset resolves to an
AnnotationSetItem (an offset value of 0 denotes no class annotations,
yielding an empty set, not an error)"; a nonzero offset resolves
through the buffer and cache, abstracted by `setItemAt`. -/
def Dex.getAnnotationSetItem {V : Type} (d : Dex V) (off : Nat) :
    Except Error (AnnotationSetItem V) :=
  if off = 0 then .ok ⟨[]⟩ else d.setItemAt off

/-- Modelled from the spec: `Dex::get_annotation_set_ref_list` (crate
root, not under `src/`): resolves an offset to an `AnnotationSetRefList`,
abstracted by `setRefListAt`. -/
def Dex.getAnnotationSetRefList {V : Type} (d : Dex V) (off : Nat) :
    Except Error (AnnotationSetRefList V) :=
  d.setRefListAt off

/-- The `try_gread_vec_with!` loop: decode `n` items sequentially from
`src`, each starting at the current offset (the decoder sees the
suffix `src.drop off` the way `gread_with` sees `&source[offset..]`),
threading the offset; returns the items and the final offset. -/
def greadVec {α : Type} (decode : List Nat → Except Error (α × Nat)) :
    Nat → List Nat → Nat → Except Error (List α × Nat)
  | 0, _, off => .ok ([], off)
  | n + 1, src, off =>
    match decode (src.drop off) with
    | .error e => .error e
    | .ok (a, c) =>
      match greadVec decode n src (off + c) with
      | .error e => .error e
      | .ok (as, off') => .ok (a :: as, off')

/-- `EncodedTypeAddrPair` (`src/encoded_item.rs`). -/
structure EncodedTypeAddrPair where
  type_id : Nat
  addr : Nat
deriving DecidableEq, Repr

/-- `EncodedTypeAddrPair::try_from_ctx` (`src/encoded_item.rs`): two
unsigned varints, type id then address; the type id is wrapped u64→u32
by `type_id: type_id as uint` (line 182), the address kept as u64
(`addr as ulong` is a no-op). -/
def etapTryFromCtx (source : List Nat) : Except Error (EncodedTypeAddrPair × Nat) :=
  match ulebReadE source with
  | .error e => .error e
  | .ok (type_id, n1) =>
    match ulebReadE (source.drop n1) with
    | .error e => .error e
    | .ok (addr, n2) => .ok (⟨uintCast type_id, addr⟩, n1 + n2)

/-- `EncodedCatchHandler` (`src/encoded_item.rs`). -/
structure EncodedCatchHandler where
  handlers : List CatchHandler
deriving DecidableEq, Repr

/-- The `.map(...).collect::<Result<_>>()` step of
`EncodedCatchHandler::try_from_ctx`: each pair's type id is resolved
through the context's type table and wrapped as a typed handler. -/
def pairsToHandlers {V : Type} (dex : Dex V) :
    List EncodedTypeAddrPair → Except Error (List CatchHandler)
  | [] => .ok []
  | p :: ps =>
    match dex.getType p.type_id with
    | .error e => .error e
    | .ok t =>
      match pairsToHandlers dex ps with
      | .error e => .error e
      | .ok hs => .ok (⟨.Ty t, p.addr⟩ :: hs)

/-- `EncodedCatchHandler::try_from_ctx` (`src/encoded_item.rs`): read a
signed varint `size`, then `size.abs()` type/addr pairs, resolve them;
when `size ≤ 0` read one more unsigned varint and append a catch-all
handler with that address.  Divergence from the source: at
`size = i64::MIN` the source's `size.abs()` overflows and the
pair-vector allocation of 2^63 elements panics (line 122); a panic is
not a returned value, so this model instead fails with an error once
the input cannot supply that many pairs — such inputs succeed in
neither the source nor the model. -/
def encodedCatchHandlerTryFromCtx {V : Type} (dex : Dex V) (source : List Nat) :
    Except Error (EncodedCatchHandler × Nat) :=
  match slebReadE source with
  | .error e => .error e
  | .ok (size, n0) =>
    match greadVec etapTryFromCtx size.natAbs source n0 with
    | .error e => .error e
    | .ok (pairs, off1) =>
      match pairsToHandlers dex pairs with
      | .error e => .error e
      | .ok handlers =>
        if size ≤ 0 then
          match ulebReadE (source.drop off1) with
          | .error e => .error e
          | .ok (allAddr, n2) =>
            .ok (⟨handlers ++ [⟨.BaseException, allAddr⟩]⟩, off1 + n2)
        else
          .ok (⟨handlers⟩, off1)

/-- `EncodedCatchHandlers` (`src/encoded_item.rs`): decoded records each
paired with the byte offset of its first byte relative to the start of
the list. -/
structure EncodedCatchHandlers where
  inner : List (Nat × EncodedCatchHandler)
deriving DecidableEq, Repr

/-- `EncodedCatchHandlers::find` (`src/encoded_item.rs`): first record
whose recorded relative offset equals `handler_offset`. -/
def EncodedCatchHandlers.find (e : EncodedCatchHandlers) (handler_offset : Nat) :
    Option EncodedCatchHandler :=
  (e.inner.find? (fun p => p.1 == handler_offset)).map (fun p => p.2)

/-- The decode loop of `EncodedCatchHandlers::try_from_ctx`: decode `n`
records, recording the pre-decode offset `off` alongside each. -/
def echsLoop {V : Type} (dex : Dex V) :
    Nat → List Nat → Nat → Except Error (List (Nat × EncodedCatchHandler) × Nat)
  | 0, _, off => .ok ([], off)
  | n + 1, src, off =>
    match encodedCatchHandlerTryFromCtx dex (src.drop off) with
    | .error e => .error e
    | .ok (h, c) =>
      match echsLoop dex n src (off + c) with
      | .error e => .error e
      | .ok (rest, off') => .ok ((off, h) :: rest, off')

/-- `EncodedCatchHandlers::try_from_ctx` (`src/encoded_item.rs`): read
an unsigned varint count, then that many records sequentially.
Divergence from the source: before reading any record the source runs
`Vec::with_capacity(encoded_handler_size as usize)` (line 152) on the
unvalidated u64 count, which panics with a capacity overflow once the
count exceeds the maximum allocation; a panic is not a returned value,
so this model instead decodes records until the input is exhausted and
returns an error — such inputs succeed in neither the source nor the
model. -/
def encodedCatchHandlersTryFromCtx {V : Type} (dex : Dex V) (source : List Nat) :
    Except Error (EncodedCatchHandlers × Nat) :=
  match ulebReadE source with
  | .error e => .error e
  | .ok (count, n0) =>
    match echsLoop dex count source n0 with
    | .error e => .error e
    | .ok (inner, off) => .ok (⟨inner⟩, off)

/-- The decode loop of `EncodedItemArray::try_from_ctx`
(`src/encoded_item.rs`), generic over the item type: `idOf` is the
`EncodedItem::id` method, `decodeItem` the item's `TryFromCtx<ulong>`
impl receiving the previous item's id as context.  `prev` starts at 0
and is replaced by each decoded item's own id. -/
def eiaLoop {T : Type} (idOf : T → Nat)
    (decodeItem : List Nat → Nat → Except Error (T × Nat)) :
    Nat → List Nat → Nat → Nat → Except Error (List T × Nat)
  | 0, _, _, off => .ok ([], off)
  | n + 1, src, prev, off =>
    match decodeItem (src.drop off) prev with
    | .error e => .error e
    | .ok (item, c) =>
      match eiaLoop idOf decodeItem n src (idOf item) (off + c) with
      | .error e => .error e
      | .ok (rest, off') => .ok (item :: rest, off')

/-- `EncodedItemArray::try_from_ctx` (`src/encoded_item.rs`): decode
exactly `len` items with `prev = 0` and `offset = 0` initially. -/
def encodedItemArrayTryFromCtx {T : Type} (idOf : T → Nat)
    (decodeItem : List Nat → Nat → Except Error (T × Nat))
    (len : Nat) (source : List Nat) : Except Error (List T × Nat) :=
  eiaLoop idOf decodeItem len source 0 0

/-- Modelled from the spec: a delta-encoded item (the concrete
`EncodedItem` implementors live in `src/field.rs`/`src/method.rs`,
outside the provided `src/`): "consecutive entries store only the
numeric difference from the prior entry's identifier"; it carries its
absolute id. -/
structure DeltaItem where
  id : Nat
deriving DecidableEq, Repr

/-- Modelled from the spec: decoding one delta item — read one unsigned
varint delta and add it to the previous item's absolute id. -/
def deltaItemDecode (src : List Nat) (prev : Nat) : Except Error (DeltaItem × Nat) :=
  match ulebReadE src with
  | .error e => .error e
  | .ok (d, n) => .ok (⟨prev + d⟩, n)

/-- Absolute ids obtained by accumulating deltas onto `prev`
(reference function for the delta-threading property). -/
def absIds (prev : Nat) : List Nat → List Nat
  | [] => []
  | d :: ds => (prev + d) :: absIds (prev + d) ds

/-- A fixed-width `uint` read (`source.gread_with(offset, endian)` in
`src/annotation.rs`): four bytes, assembled little-endian (the DEX
endianness used by the context's endian accessor); fails like `scroll`
when fewer than four bytes remain. -/
def readUint : List Nat → Except Error (Nat × Nat)
  | b0 :: b1 :: b2 :: b3 :: _ =>
      .ok (b0 + b1 * 256 + b2 * 65536 + b3 * 16777216, 4)
  | _ => .error .Scroll

/-- The `FromPrimitive` instance derived on `Visibility`
(`src/annotation.rs`): 0, 1, 2 map to the three variants, everything
else to `none`. -/
def Visibility.fromU8 : Nat → Option Visibility
  | 0 => some .Build
  | 1 => some .Runtime
  | 2 => some .System
  | _ => none

/-- `AnnotationElement::try_from_ctx` (`src/annotation.rs`): unsigned
varint string index, wrapped u64→u32 by `name_idx as StringId`
(line 85) and resolved through the context, then one externally
decoded tagged value. -/
def annotationElementTryFromCtx {V : Type} (dex : Dex V) (source : List Nat) :
    Except Error (AnnotationElement V × Nat) :=
  match ulebReadE source with
  | .error e => .error e
  | .ok (name_idx, n1) =>
    match dex.getString (uintCast name_idx) with
    | .error e => .error e
    | .ok name =>
      match dex.valueDecode (source.drop n1) with
      | .error e => .error e
      | .ok (value, n2) => .ok (⟨name, value⟩, n1 + n2)

/-- `EncodedAnnotation::try_from_ctx` (`src/annotation.rs`): unsigned
varint type index, wrapped u64→u32 by `type_idx as TypeId` (line 55)
and resolved, unsigned varint size, then `size` elements. -/
def encodedAnnotationTryFromCtx {V : Type} (dex : Dex V) (source : List Nat) :
    Except Error ( EncodedAnnotation V × Nat) :=
  match ulebReadE source with
  | .error e => .error e
  | .ok (type_idx, n1) =>
    match dex.getType (uintCast type_idx) with
    | .error e => .error e
    | .ok jtype =>
      match ulebReadE (source.drop n1) with
      | .error e => .error e
      | .ok (size, n2) =>
        match greadVec (annotationElementTryFromCtx dex) size source (n1 + n2) with
        | .error e => .error e
        | .ok (elements, off) => .ok (⟨jtype, elements⟩, off)

/-- `AnnotationItem::try_from_ctx` (`src/annotation.rs`): one visibility
byte mapped through `FromPrimitive` (failing
`InvalidId "Invalid visibility for annotation"` on any other value),
then the encoded annotation. -/
def annotationItemTryFromCtx {V : Type} (dex : Dex V) (source : List Nat) :
    Except Error (AnnotationItem V × Nat) :=
  match source with
  | [] => .error .Scroll
  | b :: rest =>
    match Visibility.fromU8 b with
    | none => .error (.InvalidId "Invalid visibility for annotation")
    | some visibility =>
      match encodedAnnotationTryFromCtx dex rest with
      | .error e => .error e
      | .ok ( annotation, n) => .ok (⟨visibility, annotation⟩, 1 + n)

/-- `FieldAnnotations` (`src/annotation.rs`). -/
structure FieldAnnotations (V : Type) where
  field_idx : Nat
  annotations : AnnotationSetItem V
deriving DecidableEq, Repr

/-- `MethodAnnotations` (`src/annotation.rs`). -/
structure MethodAnnotations (V : Type) where
  method_idx : Nat
  annotations : AnnotationSetItem V
deriving DecidableEq, Repr

/-- `ParameterAnnotations` (`src/annotation.rs`). -/
structure ParameterAnnotations (V : Type) where
  method_idx : Nat
  annotations : AnnotationSetRefList V
deriving DecidableEq, Repr

/-- `FieldAnnotations::try_from_ctx` (`src/annotation.rs`): field index
and annotation-set offset, the latter resolved through the context. -/
def fieldAnnotationsTryFromCtx {V : Type} (dex : Dex V) (source : List Nat) :
    Except Error (FieldAnnotations V × Nat) :=
  match readUint source with
  | .error e => .error e
  | .ok (field_idx, n1) =>
    match readUint (source.drop n1) with
    | .error e => .error e
    | .ok (annotation_set_item_off, n2) =>
      match dex.getAnnotationSetItem annotation_set_item_off with
      | .error e => .error e
      | .ok annotations => .ok (⟨field_idx, annotations⟩, n1 + n2)

/-- `MethodAnnotations::try_from_ctx` (`src/annotation.rs`). -/
def methodAnnotationsTryFromCtx {V : Type} (dex : Dex V) (source : List Nat) :
    Except Error (MethodAnnotations V × Nat) :=
  match readUint source with
  | .error e => .error e
  | .ok (method_idx, n1) =>
    match readUint (source.drop n1) with
    | .error e => .error e
    | .ok (annotation_set_item_off, n2) =>
      match dex.getAnnotationSetItem annotation_set_item_off with
      | .error e => .error e
      | .ok annotations => .ok (⟨method_idx, annotations⟩, n1 + n2)

/-- `ParameterAnnotations::try_from_ctx` (`src/annotation.rs`). -/
def parameterAnnotationsTryFromCtx {V : Type} (dex : Dex V) (source : List Nat) :
    Except Error (ParameterAnnotations V × Nat) :=
  match readUint source with
  | .error e => .error e
  | .ok (method_idx, n1) =>
    match readUint (source.drop n1) with
    | .error e => .error e
    | .ok (annotation_set_ref_list_off, n2) =>
      match dex.getAnnotationSetRefList annotation_set_ref_list_off with
      | .error e => .error e
      | .ok annotations => .ok (⟨method_idx, annotations⟩, n1 + n2)

/-- `AnnotationsDirectoryItem` (`src/annotation.rs`). -/
structure AnnotationsDirectoryItem (V : Type) where
  class_annotations : AnnotationSetItem V
  field_annotations : List (FieldAnnotations V)
  method_annotations : List (MethodAnnotations V)
  parameter_annotations : List (ParameterAnnotations V)
deriving DecidableEq, Repr

/-- `AnnotationsDirectoryItem::try_from_ctx` (`src/annotation.rs`):
four fixed-width header fields, the class-annotations offset resolved
through the context, then the three counted vectors in fixed order. -/
def annotationsDirectoryItemTryFromCtx {V : Type} (dex : Dex V) (source : List Nat) :
    Except Error (AnnotationsDirectoryItem V × Nat) :=
  match readUint source with
  | .error e => .error e
  | .ok (class_annotations_off, n1) =>
    match readUint (source.drop n1) with
    | .error e => .error e
    | .ok (fields_size, n2) =>
      match readUint (source.drop (n1 + n2)) with
      | .error e => .error e
      | .ok (annotated_method_size, n3) =>
        match readUint (source.drop (n1 + n2 + n3)) with
        | .error e => .error e
        | .ok (annotated_parameters_size, n4) =>
          match dex.getAnnotationSetItem class_annotations_off with
          | .error e => .error e
          | .ok class_annotations =>
            match greadVec (fieldAnnotationsTryFromCtx dex) fields_size source
                (n1 + n2 + n3 + n4) with
            | .error e => .error e
            | .ok (field_annotations, off5) =>
              match greadVec (methodAnnotationsTryFromCtx dex)
                  annotated_method_size source off5 with
              | .error e => .error e
              | .ok (method_annotations, off6) =>
                match greadVec (parameterAnnotationsTryFromCtx dex)
                    annotated_parameters_size source off6 with
                | .error e => .error e
                | .ok (parameter_annotations, off7) =>
                  .ok (⟨class_annotations, field_annotations,
                        method_annotations, parameter_annotations⟩, off7)

/-- Modelled from the spec: the backing `lru::LruCache` (external
crate) wrapped by `src/cache.rs` — "capacity-bounded offset→value
mapping", "least-recently-used key is evicted first when insertion
would exceed capacity".  `entries` keeps the most recently used pair
first, the least recently used last. -/
structure LruCache (K V : Type) where
  cap : Nat
  entries : List (K × V)

/-- Modelled from the spec: `LruCache::get` — a hit returns the value
and marks the key most recently used (moved to the front); a miss
leaves the cache unchanged. -/
def lruGet {K V : Type} [DecidableEq K] (c : LruCache K V) (k : K) :
    Option V × LruCache K V :=
  match c.entries.find? (fun p => decide (p.1 = k)) with
  | some p => (some p.2, ⟨c.cap, p :: c.entries.filter (fun q => decide (¬q.1 = k))⟩)
  | none => (none, c)

/-- Modelled from the spec: `LruCache::put` — an existing key is
updated and moved to the front; a new key is inserted at the front,
evicting the least-recently-used (last) entry when the cache is full. -/
def lruPut {K V : Type} [DecidableEq K] (c : LruCache K V) (k : K) (v : V) :
    LruCache K V :=
  if (c.entries.find? (fun p => decide (p.1 = k))).isSome then
    ⟨c.cap, (k, v) :: c.entries.filter (fun q => decide (¬q.1 = k))⟩
  else if c.entries.length < c.cap then
    ⟨c.cap, (k, v) :: c.entries⟩
  else
    ⟨c.cap, (k, v) :: c.entries.dropLast⟩

/-- The heap of backing stores: `Rc<RefCell<LruCache<K, V>>>`
allocations, addressed by `Nat`.  A `Cache` handle (`src/cache.rs`) is
an `Rc` pointer, i.e. an address into this heap. -/
def Heap (K V : Type) := Nat → LruCache K V

/-- `Cache::new` (`src/cache.rs`) allocating at fresh address `a`: the
heap now maps `a` to an empty `LruCache` of capacity `cap`. -/
def cacheNew {K V : Type} (heap : Heap K V) (a : Nat) (cap : Nat) : Heap K V :=
  fun x => if x = a then ⟨cap, []⟩ else heap x

/-- `Cache::get` (`src/cache.rs`): borrow the shared store mutably,
delegate to the LRU get, write the updated store back, return a clone
of the value. -/
def cacheGet {K V : Type} [DecidableEq K] (c : Nat) (heap : Heap K V) (k : K) :
    Option V × Heap K V :=
  match lruGet (heap c) k with
  | (r, s) => (r, fun x => if x = c then s else heap x)

/-- `Cache::put` (`src/cache.rs`): borrow the shared store mutably and
delegate to the LRU put. -/
def cachePut {K V : Type} [DecidableEq K] (c : Nat) (heap : Heap K V)
    (k : K) (v : V) : Heap K V :=
  fun x => if x = c then lruPut (heap x) k v else heap x

/-- `impl Clone for Cache` (`src/cache.rs`): cloning clones the `Rc`,
i.e. copies the pointer — the new handle addresses the same backing
store. -/
def cacheClone (c : Nat) : Nat := c

/-- Folding `Cache::put` over a list of pairs through handle `c`. -/
def cachePuts {K V : Type} [DecidableEq K] (c : Nat) (heap : Heap K V)
    (pairs : List (K × V)) : Heap K V :=
  pairs.foldl (fun h p => cachePut c h p.1 p.2) heap

/-! ### Basic lemmas about the codecs and loops -/

theorem ulebRead_pos (s : List Nat) (v n : Nat) (h : ulebRead s = some (v, n)) :
    0 < n := by
  cases s with
  | nil => simp [ulebRead] at h
  | cons b rest =>
    rw [ulebRead] at h
    by_cases hb : b < 128
    · simp only [if_pos hb, Option.some.injEq, Prod.mk.injEq] at h
      omega
    · simp only [if_neg hb] at h
      cases hr : ulebRead rest with
      | none => rw [hr] at h; simp at h
      | some p =>
        rw [hr] at h
        simp only [Option.some.injEq, Prod.mk.injEq] at h
        omega

theorem slebRead_pos (s : List Nat) (v : Int) (n : Nat) (h : slebRead s = some (v, n)) :
    0 < n := by
  cases s with
  | nil => simp [slebRead] at h
  | cons b rest =>
    rw [slebRead] at h
    by_cases hb : b < 128
    · simp only [if_pos hb, Option.some.injEq, Prod.mk.injEq] at h
      omega
    · simp only [if_neg hb] at h
      cases hr : slebRead rest with
      | none => rw [hr] at h; simp at h
      | some p =>
        rw [hr] at h
        simp only [Option.some.injEq, Prod.mk.injEq] at h
        omega

theorem ulebReadE_pos (s : List Nat) (v n : Nat) (h : ulebReadE s = .ok (v, n)) :
    0 < n := by
  unfold ulebReadE at h
  cases hr : ulebRead s with
  | none => rw [hr] at h; simp at h
  | some p =>
    obtain ⟨pv, pn⟩ := p
    rw [hr] at h
    simp only [Except.ok.injEq, Prod.mk.injEq] at h
    have := ulebRead_pos s pv pn hr
    omega

theorem slebReadE_pos (s : List Nat) (v : Int) (n : Nat) (h : slebReadE s = .ok (v, n)) :
    0 < n := by
  unfold slebReadE at h
  cases hr : slebRead s with
  | none => rw [hr] at h; simp at h
  | some p =>
    obtain ⟨pv, pn⟩ := p
    rw [hr] at h
    simp only [Except.ok.injEq, Prod.mk.injEq] at h
    have := slebRead_pos s pv pn hr
    omega

theorem greadVec_length {α : Type} (decode : List Nat → Except Error (α × Nat)) :
    ∀ (n : Nat) (src : List Nat) (off : Nat) (l : List α) (off' : Nat),
      greadVec decode n src off = .ok (l, off') → l.length = n := by
  intro n
  induction n with
  | zero =>
    intro src off l off' h
    simp only [greadVec, Except.ok.injEq, Prod.mk.injEq] at h
    simp [← h.1]
  | succ m ih =>
    intro src off l off' h
    rw [greadVec] at h
    cases h1 : decode (src.drop off) with
    | error e => rw [h1] at h; simp at h
    | ok p =>
      obtain ⟨a, c⟩ := p
      rw [h1] at h
      dsimp only at h
      cases h2 : greadVec decode m src (off + c) with
      | error e => rw [h2] at h; simp at h
      | ok q =>
        obtain ⟨as, offq⟩ := q
        rw [h2] at h
        simp only [Except.ok.injEq, Prod.mk.injEq] at h
        have := ih src (off + c) as offq h2
        rw [← h.1]
        simp [this]

theorem greadVec_le {α : Type} (decode : List Nat → Except Error (α × Nat)) :
    ∀ (n : Nat) (src : List Nat) (off : Nat) (l : List α) (off' : Nat),
      greadVec decode n src off = .ok (l, off') → off ≤ off' := by
  intro n
  induction n with
  | zero =>
    intro src off l off' h
    simp only [greadVec, Except.ok.injEq, Prod.mk.injEq] at h
    omega
  | succ m ih =>
    intro src off l off' h
    rw [greadVec] at h
    cases h1 : decode (src.drop off) with
    | error e => rw [h1] at h; simp at h
    | ok p =>
      obtain ⟨a, c⟩ := p
      rw [h1] at h
      dsimp only at h
      cases h2 : greadVec decode m src (off + c) with
      | error e => rw [h2] at h; simp at h
      | ok q =>
        obtain ⟨as, offq⟩ := q
        rw [h2] at h
        simp only [Except.ok.injEq, Prod.mk.injEq] at h
        have := ih src (off + c) as offq h2
        omega

theorem pairsToHandlers_length {V : Type} (dex : Dex V) :
    ∀ (ps : List EncodedTypeAddrPair) (hs : List CatchHandler),
      pairsToHandlers dex ps = .ok hs → hs.length = ps.length := by
  intro ps
  induction ps with
  | nil =>
    intro hs h
    simp only [pairsToHandlers, Except.ok.injEq] at h
    simp [← h]
  | cons p ps ih =>
    intro hs h
    rw [pairsToHandlers] at h
    cases h1 : dex.getType p.type_id with
    | error e => rw [h1] at h; simp at h
    | ok t =>
      rw [h1] at h
      cases h2 : pairsToHandlers dex ps with
      | error e => rw [h2] at h; simp at h
      | ok hs' =>
        rw [h2] at h
        simp only [Except.ok.injEq] at h
        have := ih hs' h2
        rw [← h]
        simp [this]

theorem pairsToHandlers_typed {V : Type} (dex : Dex V) :
    ∀ (ps : List EncodedTypeAddrPair) (hs : List CatchHandler),
      pairsToHandlers dex ps = .ok hs →
      ∀ c ∈ hs, ∃ t, c.exception = ExceptionType.Ty t := by
  intro ps
  induction ps with
  | nil =>
    intro hs h
    simp only [pairsToHandlers, Except.ok.injEq] at h
    simp [← h]
  | cons p ps ih =>
    intro hs h
    rw [pairsToHandlers] at h
    cases h1 : dex.getType p.type_id with
    | error e => rw [h1] at h; simp at h
    | ok t =>
      rw [h1] at h
      cases h2 : pairsToHandlers dex ps with
      | error e => rw [h2] at h; simp at h
      | ok hs' =>
        rw [h2] at h
        simp only [Except.ok.injEq] at h
        subst h
        intro c hc
        rcases List.mem_cons.mp hc with hc | hc
        · exact ⟨t, by simp [hc]⟩
        · exact ih hs' h2 c hc

theorem ulebReadE_eq_ok (s : List Nat) (p : Nat × Nat) :
    ulebReadE s = .ok p ↔ ulebRead s = some p := by
  unfold ulebReadE
  cases hr : ulebRead s with
  | none => simp
  | some q => simp

theorem slebReadE_eq_ok (s : List Nat) (p : Int × Nat) :
    slebReadE s = .ok p ↔ slebRead s = some p := by
  unfold slebReadE
  cases hr : slebRead s with
  | none => simp
  | some q => simp

/-- Decomposition of a successful `EncodedCatchHandler` decode into its
read steps. -/
theorem ech_decomp {V : Type} (dex : Dex V) (src : List Nat)
    (ech : EncodedCatchHandler) (consumed : Nat)
    (h : encodedCatchHandlerTryFromCtx dex src = .ok (ech, consumed)) :
    ∃ size n0 pairs off1 handlers,
      slebRead src = some (size, n0) ∧
      greadVec etapTryFromCtx size.natAbs src n0 = .ok (pairs, off1) ∧
      pairsToHandlers dex pairs = .ok handlers ∧
      ((size ≤ 0 ∧ ∃ addr n2, ulebRead (src.drop off1) = some (addr, n2) ∧
          ech.handlers = handlers ++ [⟨.BaseException, addr⟩] ∧
          consumed = off1 + n2) ∨
       (0 < size ∧ ech.handlers = handlers ∧ consumed = off1)) := by
  unfold encodedCatchHandlerTryFromCtx at h
  cases h0 : slebReadE src with
  | error e => rw [h0] at h; simp at h
  | ok p0 =>
    obtain ⟨size, n0⟩ := p0
    rw [h0] at h
    dsimp only at h
    cases h1 : greadVec etapTryFromCtx size.natAbs src n0 with
    | error e => rw [h1] at h; simp at h
    | ok p1 =>
      obtain ⟨pairs, off1⟩ := p1
      rw [h1] at h
      dsimp only at h
      cases h2 : pairsToHandlers dex pairs with
      | error e => rw [h2] at h; simp at h
      | ok handlers =>
        rw [h2] at h
        dsimp only at h
        refine ⟨size, n0, pairs, off1, handlers,
          (slebReadE_eq_ok src (size, n0)).mp h0, h1, h2, ?_⟩
        by_cases hsz : size ≤ 0
        · rw [if_pos hsz] at h
          cases h3 : ulebReadE (List.drop off1 src) with
          | error e => rw [h3] at h; simp at h
          | ok p3 =>
            obtain ⟨addr, n2⟩ := p3
            rw [h3] at h
            simp only [Except.ok.injEq, Prod.mk.injEq] at h
            refine Or.inl ⟨hsz, addr, n2, (ulebReadE_eq_ok _ _).mp h3, ?_, h.2.symm⟩
            rw [← h.1]
        · rw [if_neg hsz] at h
          simp only [Except.ok.injEq, Prod.mk.injEq] at h
          exact Or.inr ⟨by omega, by rw [← h.1], h.2.symm⟩

/-- A successful `EncodedCatchHandler` decode consumes at least one
byte (the header varint). -/
theorem ech_consumed_pos {V : Type} (dex : Dex V) (src : List Nat)
    (ech : EncodedCatchHandler) (consumed : Nat)
    (h : encodedCatchHandlerTryFromCtx dex src = .ok (ech, consumed)) :
    0 < consumed := by
  obtain ⟨size, n0, pairs, off1, handlers, hs, hg, _, hcase⟩ := ech_decomp dex src ech consumed h
  have hn0 : 0 < n0 := slebRead_pos src size n0 hs
  have hle : n0 ≤ off1 := greadVec_le etapTryFromCtx size.natAbs src n0 pairs off1 hg
  rcases hcase with ⟨_, _, _, _, _, hc⟩ | ⟨_, _, hc⟩ <;> omega

theorem echsLoop_length {V : Type} (dex : Dex V) :
    ∀ (n : Nat) (src : List Nat) (off : Nat)
      (l : List (Nat × EncodedCatchHandler)) (off' : Nat),
      echsLoop dex n src off = .ok (l, off') → l.length = n := by
  intro n
  induction n with
  | zero =>
    intro src off l off' h
    simp only [echsLoop, Except.ok.injEq, Prod.mk.injEq] at h
    simp [← h.1]
  | succ m ih =>
    intro src off l off' h
    rw [echsLoop] at h
    cases h1 : encodedCatchHandlerTryFromCtx dex (src.drop off) with
    | error e => rw [h1] at h; simp at h
    | ok p =>
      obtain ⟨hd, c⟩ := p
      rw [h1] at h
      dsimp only at h
      cases h2 : echsLoop dex m src (off + c) with
      | error e => rw [h2] at h; simp at h
      | ok q =>
        obtain ⟨rest, offq⟩ := q
        rw [h2] at h
        simp only [Except.ok.injEq, Prod.mk.injEq] at h
        have := ih src (off + c) rest offq h2
        rw [← h.1]
        simp [this]

theorem echsLoop_lb {V : Type} (dex : Dex V) :
    ∀ (n : Nat) (src : List Nat) (off : Nat)
      (l : List (Nat × EncodedCatchHandler)) (off' : Nat),
      echsLoop dex n src off = .ok (l, off') → ∀ p ∈ l, off ≤ p.1 := by
  intro n
  induction n with
  | zero =>
    intro src off l off' h
    simp only [echsLoop, Except.ok.injEq, Prod.mk.injEq] at h
    rw [← h.1]
    simp
  | succ m ih =>
    intro src off l off' h
    rw [echsLoop] at h
    cases h1 : encodedCatchHandlerTryFromCtx dex (src.drop off) with
    | error e => rw [h1] at h; simp at h
    | ok p =>
      obtain ⟨hd, c⟩ := p
      rw [h1] at h
      dsimp only at h
      cases h2 : echsLoop dex m src (off + c) with
      | error e => rw [h2] at h; simp at h
      | ok q =>
        obtain ⟨rest, offq⟩ := q
        rw [h2] at h
        simp only [Except.ok.injEq, Prod.mk.injEq] at h
        rw [← h.1]
        intro p hp
        rcases List.mem_cons.mp hp with hp | hp
        · simp [hp]
        · have := ih src (off + c) rest offq h2 p hp
          omega

theorem echsLoop_pairwise {V : Type} (dex : Dex V) :
    ∀ (n : Nat) (src : List Nat) (off : Nat)
      (l : List (Nat × EncodedCatchHandler)) (off' : Nat),
      echsLoop dex n src off = .ok (l, off') →
      List.Pairwise (fun a b => a < b) (l.map Prod.fst) := by
  intro n
  induction n with
  | zero =>
    intro src off l off' h
    simp only [echsLoop, Except.ok.injEq, Prod.mk.injEq] at h
    rw [← h.1]
    simp
  | succ m ih =>
    intro src off l off' h
    rw [echsLoop] at h
    cases h1 : encodedCatchHandlerTryFromCtx dex (src.drop off) with
    | error e => rw [h1] at h; simp at h
    | ok p =>
      obtain ⟨hd, c⟩ := p
      rw [h1] at h
      dsimp only at h
      cases h2 : echsLoop dex m src (off + c) with
      | error e => rw [h2] at h; simp at h
      | ok q =>
        obtain ⟨rest, offq⟩ := q
        rw [h2] at h
        simp only [Except.ok.injEq, Prod.mk.injEq] at h
        rw [← h.1]
        have hc : 0 < c := ech_consumed_pos dex (src.drop off) hd c h1
        simp only [List.map_cons, List.pairwise_cons]
        constructor
        · intro x hx
          rcases List.mem_map.mp hx with ⟨p, hp, hpx⟩
          have := echsLoop_lb dex m src (off + c) rest offq h2 p hp
          omega
        · exact ih src (off + c) rest offq h2

theorem echsLoop_head {V : Type} (dex : Dex V) (m : Nat) (src : List Nat)
    (off : Nat) (l : List (Nat × EncodedCatchHandler)) (off' : Nat)
    (h : echsLoop dex (m + 1) src off = .ok (l, off')) :
    ∃ hd rest, l = (off, hd) :: rest := by
  rw [echsLoop] at h
  cases h1 : encodedCatchHandlerTryFromCtx dex (src.drop off) with
  | error e => rw [h1] at h; simp at h
  | ok p =>
    obtain ⟨hd, c⟩ := p
    rw [h1] at h
    dsimp only at h
    cases h2 : echsLoop dex m src (off + c) with
    | error e => rw [h2] at h; simp at h
    | ok q =>
      obtain ⟨rest, offq⟩ := q
      rw [h2] at h
      simp only [Except.ok.injEq, Prod.mk.injEq] at h
      exact ⟨hd, rest, h.1.symm⟩

theorem echsLoop_mem_decode {V : Type} (dex : Dex V) :
    ∀ (n : Nat) (src : List Nat) (off : Nat)
      (l : List (Nat × EncodedCatchHandler)) (off' : Nat),
      echsLoop dex n src off = .ok (l, off') →
      ∀ p ∈ l, ∃ c, 0 < c ∧
        encodedCatchHandlerTryFromCtx dex (src.drop p.1) = .ok (p.2, c) := by
  intro n
  induction n with
  | zero =>
    intro src off l off' h
    simp only [echsLoop, Except.ok.injEq, Prod.mk.injEq] at h
    rw [← h.1]
    simp
  | succ m ih =>
    intro src off l off' h
    rw [echsLoop] at h
    cases h1 : encodedCatchHandlerTryFromCtx dex (src.drop off) with
    | error e => rw [h1] at h; simp at h
    | ok p =>
      obtain ⟨hd, c⟩ := p
      rw [h1] at h
      dsimp only at h
      cases h2 : echsLoop dex m src (off + c) with
      | error e => rw [h2] at h; simp at h
      | ok q =>
        obtain ⟨rest, offq⟩ := q
        rw [h2] at h
        simp only [Except.ok.injEq, Prod.mk.injEq] at h
        rw [← h.1]
        intro p hp
        rcases List.mem_cons.mp hp with hp | hp
        · subst hp
          exact ⟨c, ech_consumed_pos dex (src.drop off) hd c h1, h1⟩
        · exact ih src (off + c) rest offq h2 p hp

theorem find?_key_unique (l : List (Nat × EncodedCatchHandler)) (off : Nat)
    (hd : EncodedCatchHandler) (hnd : (l.map Prod.fst).Nodup)
    (hmem : (off, hd) ∈ l) :
    l.find? (fun p => p.1 == off) = some (off, hd) := by
  induction l with
  | nil => simp at hmem
  | cons q rest ih =>
    obtain ⟨k, a⟩ := q
    simp only [List.map_cons, List.nodup_cons] at hnd
    rcases List.mem_cons.mp hmem with heq | hmem'
    · have hk : k = off := by
        have := congrArg Prod.fst heq
        simp at this
        omega
      have ha : a = hd := by
        have := congrArg Prod.snd heq
        simpa using this.symm
      subst hk ha
      exact List.find?_cons_of_pos rest (by simp)
    · have hoff : off ∈ rest.map Prod.fst :=
        List.mem_map.mpr ⟨(off, hd), hmem', rfl⟩
      have hk : ¬k = off := by
        intro hk
        exact hnd.1 (hk ▸ hoff)
      rw [List.find?_cons_of_neg rest (by simp [hk])]
      exact ih hnd.2 hmem'

/-- Decomposition of a successful `EncodedCatchHandlers` decode. -/
theorem echs_decomp {V : Type} (dex : Dex V) (src : List Nat)
    (echs : EncodedCatchHandlers) (consumed : Nat)
    (h : encodedCatchHandlersTryFromCtx dex src = .ok (echs, consumed)) :
    ∃ count n0, ulebRead src = some (count, n0) ∧
      echsLoop dex count src n0 = .ok (echs.inner, consumed) := by
  unfold encodedCatchHandlersTryFromCtx at h
  cases h0 : ulebReadE src with
  | error e => rw [h0] at h; simp at h
  | ok p0 =>
    obtain ⟨count, n0⟩ := p0
    rw [h0] at h
    dsimp only at h
    cases h1 : echsLoop dex count src n0 with
    | error e => rw [h1] at h; simp at h
    | ok p1 =>
      obtain ⟨inner, off⟩ := p1
      rw [h1] at h
      simp only [Except.ok.injEq, Prod.mk.injEq] at h
      refine ⟨count, n0, (ulebReadE_eq_ok src (count, n0)).mp h0, ?_⟩
      obtain ⟨hv, hoff⟩ := h
      rw [← hv, ← hoff]
      exact h1

/-! ### Claim theorems for the catch-handler decoder -/

/-- Claim C1: for every byte input whose decoded SLEB128 header is ≤ 0,
a successful `EncodedCatchHandler` decode yields `abs(header)` typed
handlers followed by exactly one catch-all handler (`BaseException`)
whose address is read as one unsigned varint after the typed pairs; the
result never contains more than one catch-all handler. -/
theorem c1_catch_handler_nonpositive_header {V : Type} (dex : Dex V)
    (src : List Nat) (hdr : Int) (n0 : Nat) (ech : EncodedCatchHandler)
    (consumed : Nat)
    (hsleb : slebRead src = some (hdr, n0)) (hle : hdr ≤ 0)
    (hdec : encodedCatchHandlerTryFromCtx dex src = .ok (ech, consumed)) :
    ∃ typed addr n2 off1,
      ech.handlers = typed ++ [⟨.BaseException, addr⟩] ∧
      typed.length = hdr.natAbs ∧
      (∀ c ∈ typed, ∃ t, c.exception = ExceptionType.Ty t) ∧
      (∃ pairs, greadVec etapTryFromCtx hdr.natAbs src n0 = .ok (pairs, off1)) ∧
      ulebRead (src.drop off1) = some (addr, n2) ∧
      consumed = off1 + n2 ∧
      ech.handlers.countP
        (fun c => decide (c.exception = ExceptionType.BaseException)) = 1 := by
  obtain ⟨size, m0, pairs, off1, handlers, hs, hg, hp, hcase⟩ :=
    ech_decomp dex src ech consumed hdec
  rw [hsleb] at hs
  simp only [Option.some.injEq, Prod.mk.injEq] at hs
  obtain ⟨hs1, hs2⟩ := hs
  subst hs1 hs2
  rcases hcase with ⟨_, addr, n2, hu, hh, hc⟩ | ⟨hgt, _, _⟩
  · have htyped : ∀ c ∈ handlers, ∃ t, c.exception = ExceptionType.Ty t :=
      pairsToHandlers_typed dex pairs handlers hp
    have hlen : handlers.length = hdr.natAbs := by
      rw [pairsToHandlers_length dex pairs handlers hp]
      exact greadVec_length etapTryFromCtx hdr.natAbs src n0 pairs off1 hg
    refine ⟨handlers, addr, n2, off1, hh, hlen, htyped, ⟨pairs, hg⟩, hu, hc, ?_⟩
    rw [hh, List.countP_append]
    have hz : handlers.countP
        (fun c => decide (c.exception = ExceptionType.BaseException)) = 0 := by
      rw [List.countP_eq_zero]
      intro c hc'
      obtain ⟨t, ht⟩ := htyped c hc'
      simp [ht]
    rw [hz]
    simp
  · omega

/-- Claim C2: for every byte input whose decoded SLEB128 header is > 0,
a successful `EncodedCatchHandler` decode yields exactly `header`
typed (type-reference, address) handlers and no catch-all handler. -/
theorem c2_catch_handler_positive_header {V : Type} (dex : Dex V)
    (src : List Nat) (hdr : Int) (n0 : Nat) (ech : EncodedCatchHandler)
    (consumed : Nat)
    (hsleb : slebRead src = some (hdr, n0)) (hgt : 0 < hdr)
    (hdec : encodedCatchHandlerTryFromCtx dex src = .ok (ech, consumed)) :
    ech.handlers.length = hdr.natAbs ∧
    (∀ c ∈ ech.handlers, ∃ t, c.exception = ExceptionType.Ty t) ∧
    ech.handlers.countP
      (fun c => decide (c.exception = ExceptionType.BaseException)) = 0 := by
  obtain ⟨size, m0, pairs, off1, handlers, hs, hg, hp, hcase⟩ :=
    ech_decomp dex src ech consumed hdec
  rw [hsleb] at hs
  simp only [Option.some.injEq, Prod.mk.injEq] at hs
  obtain ⟨hs1, hs2⟩ := hs
  subst hs1 hs2
  rcases hcase with ⟨hle, _⟩ | ⟨_, hh, _⟩
  · omega
  · have htyped : ∀ c ∈ handlers, ∃ t, c.exception = ExceptionType.Ty t :=
      pairsToHandlers_typed dex pairs handlers hp
    have hlen : handlers.length = hdr.natAbs := by
      rw [pairsToHandlers_length dex pairs handlers hp]
      exact greadVec_length etapTryFromCtx hdr.natAbs src n0 pairs off1 hg
    refine ⟨by rw [hh]; exact hlen, by rw [hh]; exact htyped, ?_⟩
    rw [hh, List.countP_eq_zero]
    intro c hc'
    obtain ⟨t, ht⟩ := htyped c hc'
    simp [ht]

/-- Claim C9: `EncodedCatchHandlers` decoding reads an unsigned-varint
count, decodes that many records sequentially, recording each record's
relative start offset (the record decodes exactly at its recorded
offset); `find` returns the record stored under a given relative
offset, and `none` for every relative offset not recorded. -/
theorem c9_catch_handlers_offsets_find {V : Type} (dex : Dex V)
    (src : List Nat) (echs : EncodedCatchHandlers) (consumed : Nat)
    (hdec : encodedCatchHandlersTryFromCtx dex src = .ok (echs, consumed)) :
    (∃ count n0, ulebRead src = some (count, n0) ∧
      echs.inner.length = count ∧
      echsLoop dex count src n0 = .ok (echs.inner, consumed)) ∧
    (∀ p ∈ echs.inner, ∃ c, 0 < c ∧
      encodedCatchHandlerTryFromCtx dex (src.drop p.1) = .ok (p.2, c)) ∧
    (∀ off hd, (off, hd) ∈ echs.inner → echs.find off = some hd) ∧
    (∀ off, off ∉ echs.inner.map Prod.fst → echs.find off = none) := by
  obtain ⟨count, n0, hu, hloop⟩ := echs_decomp dex src echs consumed hdec
  have hlen := echsLoop_length dex count src n0 echs.inner consumed hloop
  have hpw := echsLoop_pairwise dex count src n0 echs.inner consumed hloop
  have hnd : (echs.inner.map Prod.fst).Nodup := hpw.imp Nat.ne_of_lt
  refine ⟨⟨count, n0, hu, hlen, hloop⟩,
    echsLoop_mem_decode dex count src n0 echs.inner consumed hloop, ?_, ?_⟩
  · intro off hd hmem
    unfold EncodedCatchHandlers.find
    rw [find?_key_unique echs.inner off hd hnd hmem]
    rfl
  · intro off hoff
    unfold EncodedCatchHandlers.find
    rw [List.find?_eq_none.mpr]
    · rfl
    · intro p hp
      simp only [beq_iff_eq]
      intro hpe
      exact hoff (List.mem_map.mpr ⟨p, hp, hpe⟩)

/-- Claim C10: in every successfully decoded `EncodedCatchHandlers`
value the recorded relative offsets are strictly increasing, the first
recorded offset equals the byte length of the leading count varint and
is nonzero, and each relative offset identifies at most one record. -/
theorem c10_catch_handlers_offsets_strictly_increasing {V : Type} (dex : Dex V)
    (src : List Nat) (echs : EncodedCatchHandlers) (consumed : Nat)
    (hdec : encodedCatchHandlersTryFromCtx dex src = .ok (echs, consumed)) :
    List.Pairwise (fun a b => a < b) (echs.inner.map Prod.fst) ∧
    (∀ hd rest, echs.inner = hd :: rest →
      ∃ count n0, ulebRead src = some (count, n0) ∧ hd.1 = n0 ∧ 0 < hd.1) ∧
    (∀ off h1 h2, (off, h1) ∈ echs.inner → (off, h2) ∈ echs.inner →
      h1 = h2) := by
  obtain ⟨count, n0, hu, hloop⟩ := echs_decomp dex src echs consumed hdec
  have hpw := echsLoop_pairwise dex count src n0 echs.inner consumed hloop
  have hnd : (echs.inner.map Prod.fst).Nodup := hpw.imp Nat.ne_of_lt
  refine ⟨hpw, ?_, ?_⟩
  · intro hd rest hinner
    have hlen := echsLoop_length dex count src n0 echs.inner consumed hloop
    rw [hinner] at hlen
    cases count with
    | zero => simp at hlen
    | succ m =>
      obtain ⟨hd', rest', hform⟩ :=
        echsLoop_head dex m src n0 echs.inner consumed hloop
      rw [hinner] at hform
      have hn0 : 0 < n0 := ulebRead_pos src (m + 1) n0 (by simpa using hu)
      have hfst : hd.1 = n0 := by
        have hpair : hd = (n0, hd') := by
          have := congrArg (fun l => List.head? l) hform
          simpa using this
        rw [hpair]
      exact ⟨m + 1, n0, by simpa using hu, hfst, by omega⟩
  · intro off h1 h2 hm1 hm2
    have e1 := find?_key_unique echs.inner off h1 hnd hm1
    have e2 := find?_key_unique echs.inner off h2 hnd hm2
    rw [e1] at e2
    simpa using e2
/-- A small concrete decoding context used by the witnesses: two type
descriptors, two strings, a value hook that decodes one byte, and no
resolvable nonzero offsets. -/
def sampleDex : Dex Nat :=
  ⟨["LA;", "LB;"], ["a", "name"],
   fun s => match s with
     | [] => .error .Scroll
     | b :: _ => .ok (b, 1),
   fun off => .error (.BadOffset off "Invalid annotation set item offset"),
   fun off => .error (.BadOffset off "Invalid annotation set ref list offset")⟩

/-- Expected decode of `[127, 0, 10, 7]` (header −1): one typed
handler, then the catch-all. -/
def sampleEch1 : EncodedCatchHandler :=
  ⟨[⟨.Ty "LA;", 10⟩, ⟨.BaseException, 7⟩]⟩

/-- Expected decode of `[2, 0, 10, 1, 20]` (header 2): two typed
handlers, no catch-all. -/
def sampleEch2 : EncodedCatchHandler :=
  ⟨[⟨.Ty "LA;", 10⟩, ⟨.Ty "LB;", 20⟩]⟩

/-- Expected decode of `[2, 0, 9, 0, 3]`: two records at relative
offsets 1 and 3. -/
def sampleEchs : EncodedCatchHandlers :=
  ⟨[(1, ⟨[⟨.BaseException, 9⟩]⟩), (3, ⟨[⟨.BaseException, 3⟩]⟩)]⟩

/-- Claim C3 (refuted by the code — bug evidence): the 9-byte
malformed input `[0x80 ×8, 0x40]` decodes a count varint of 2^62,
which `EncodedCatchHandlers::try_from_ctx` hands to
`Vec::with_capacity` before reading a single record
(`src/encoded_item.rs`, line 152); 2^62 elements exceed Rust's maximum
allocation of `isize::MAX` = 9223372036854775807 bytes even at two
bytes per element, so the program aborts with a capacity-overflow
panic instead of returning an error value.  The specified behavior —
an error value, produced here by the model once the input is
exhausted — is what the claim (and the spec) require. -/
theorem c3_capacity_overflow_count :
    ulebRead [128, 128, 128, 128, 128, 128, 128, 128, 64]
      = some (2 ^ 62, 9) ∧
    9223372036854775807 < 2 ^ 62 * 2 ∧
    encodedCatchHandlersTryFromCtx sampleDex
        [128, 128, 128, 128, 128, 128, 128, 128, 64]
      = .error .Scroll := by
  refine ⟨by decide, by norm_num, ?_⟩
  unfold encodedCatchHandlersTryFromCtx
  have hu : ulebReadE [128, 128, 128, 128, 128, 128, 128, 128, 64]
      = .ok (2 ^ 62, 9) := by
    apply (ulebReadE_eq_ok _ _).mpr
    decide
  rw [hu]
  dsimp only
  have h62 : (2 ^ 62 : Nat) = (2 ^ 62 - 1) + 1 := by norm_num
  rw [h62, echsLoop]
  have hech : encodedCatchHandlerTryFromCtx sampleDex
      (List.drop 9 [128, 128, 128, 128, 128, 128, 128, 128, 64])
      = .error .Scroll := rfl
  rw [hech]

/-- Witness for C1 at input `[127, 0, 10, 7]` (header −1). -/
theorem c1_catch_handler_nonpositive_header_witness :
    ∃ typed addr n2 off1,
      sampleEch1.handlers = typed ++ [⟨.BaseException, addr⟩] ∧
      typed.length = (-1 : Int).natAbs ∧
      (∀ c ∈ typed, ∃ t, c.exception = ExceptionType.Ty t) ∧
      (∃ pairs, greadVec etapTryFromCtx (-1 : Int).natAbs [127, 0, 10, 7] 1
        = .ok (pairs, off1)) ∧
      ulebRead (List.drop off1 [127, 0, 10, 7]) = some (addr, n2) ∧
      4 = off1 + n2 ∧
      sampleEch1.handlers.countP
        (fun c => decide (c.exception = ExceptionType.BaseException)) = 1 :=
  c1_catch_handler_nonpositive_header sampleDex [127, 0, 10, 7] (-1) 1
    sampleEch1 4 (by decide) (by decide) rfl

/-- Witness for C2 at input `[2, 0, 10, 1, 20]` (header 2). -/
theorem c2_catch_handler_positive_header_witness :
    sampleEch2.handlers.length = (2 : Int).natAbs ∧
    (∀ c ∈ sampleEch2.handlers, ∃ t, c.exception = ExceptionType.Ty t) ∧
    sampleEch2.handlers.countP
      (fun c => decide (c.exception = ExceptionType.BaseException)) = 0 :=
  c2_catch_handler_positive_header sampleDex [2, 0, 10, 1, 20] 2 1
    sampleEch2 5 (by decide) (by decide) rfl

/-- Witness for C9 at input `[2, 0, 9, 0, 3]`. -/
theorem c9_catch_handlers_offsets_find_witness :
    (∃ count n0, ulebRead [2, 0, 9, 0, 3] = some (count, n0) ∧
      sampleEchs.inner.length = count ∧
      echsLoop sampleDex count [2, 0, 9, 0, 3] n0 = .ok (sampleEchs.inner, 5)) ∧
    (∀ p ∈ sampleEchs.inner, ∃ c, 0 < c ∧
      encodedCatchHandlerTryFromCtx sampleDex (List.drop p.1 [2, 0, 9, 0, 3])
        = .ok (p.2, c)) ∧
    (∀ off hd, (off, hd) ∈ sampleEchs.inner → sampleEchs.find off = some hd) ∧
    (∀ off, off ∉ sampleEchs.inner.map Prod.fst → sampleEchs.find off = none) :=
  c9_catch_handlers_offsets_find sampleDex [2, 0, 9, 0, 3] sampleEchs 5 rfl

/-- Witness for C10 at input `[2, 0, 9, 0, 3]`. -/
theorem c10_catch_handlers_offsets_strictly_increasing_witness :
    List.Pairwise (fun a b => a < b) (sampleEchs.inner.map Prod.fst) ∧
    (∀ hd rest, sampleEchs.inner = hd :: rest →
      ∃ count n0, ulebRead [2, 0, 9, 0, 3] = some (count, n0) ∧
        hd.1 = n0 ∧ 0 < hd.1) ∧
    (∀ off h1 h2, (off, h1) ∈ sampleEchs.inner → (off, h2) ∈ sampleEchs.inner →
      h1 = h2) :=
  c10_catch_handlers_offsets_strictly_increasing sampleDex [2, 0, 9, 0, 3]
    sampleEchs 5 rfl

/-- One-byte encodings: a delta below 128 is read as itself by the
unsigned varint codec, so a list of such deltas is its own encoding.
The array loop then produces the running absolute ids. -/
theorem eiaLoop_delta_bytes :
    ∀ (post : List Nat) (src : List Nat) (prev off : Nat),
      src.drop off = post → (∀ d ∈ post, d < 128) →
      eiaLoop DeltaItem.id deltaItemDecode post.length src prev off
        = .ok ((absIds prev post).map DeltaItem.mk, off + post.length) := by
  intro post
  induction post with
  | nil =>
    intro src prev off _ _
    simp [eiaLoop, absIds]
  | cons d ds ih =>
    intro src prev off hdrop hsmall
    have hd : d < 128 := hsmall d (by simp)
    have hdec : deltaItemDecode (d :: ds) prev = .ok (⟨prev + d⟩, 1) := by
      unfold deltaItemDecode ulebReadE
      rw [ulebRead]
      simp [hd]
    rw [List.length_cons, eiaLoop, hdrop, hdec]
    dsimp only
    have hdrop2 : src.drop (off + 1) = ds := by
      have h2 := List.drop_drop 1 off src
      rw [hdrop] at h2
      simp only [List.drop_succ_cons, List.drop_zero] at h2
      exact h2.symm
    rw [ih src (prev + d) (off + 1) hdrop2 (fun x hx => hsmall x (by simp [hx]))]
    dsimp only
    rw [absIds]
    simp only [List.map_cons, Except.ok.injEq, Prod.mk.injEq, DeltaItem.mk.injEq,
      true_and, and_true]
    omega

/-- Claim C4: the delta-id item array decoder feeds each item's decode
routine the previous item's absolute identifier (initial value 0) and
feeds the new item's identifier to the next iteration: for one-byte
deltas the decoded ids are the running sums; in particular deltas
`[5, 0, 3]` decode to absolute ids `[5, 5, 8]`, and a length-0 array
yields an empty sequence consuming zero bytes. -/
theorem c4_delta_id_array_threading :
    (∀ deltas : List Nat, (∀ d ∈ deltas, d < 128) →
      encodedItemArrayTryFromCtx DeltaItem.id deltaItemDecode deltas.length deltas
        = .ok ((absIds 0 deltas).map DeltaItem.mk, deltas.length)) ∧
    encodedItemArrayTryFromCtx DeltaItem.id deltaItemDecode 3 [5, 0, 3]
      = .ok ([⟨5⟩, ⟨5⟩, ⟨8⟩], 3) ∧
    (∀ src, encodedItemArrayTryFromCtx DeltaItem.id deltaItemDecode 0 src
      = .ok ([], 0)) := by
  refine ⟨?_, rfl, fun src => rfl⟩
  intro deltas hsmall
  unfold encodedItemArrayTryFromCtx
  simpa using eiaLoop_delta_bytes deltas deltas 0 0 rfl hsmall

/-- Witness for C4: the general threading clause applied to the
concrete deltas `[5, 0, 3]`. -/
theorem c4_delta_id_array_threading_witness :
    encodedItemArrayTryFromCtx DeltaItem.id deltaItemDecode 3 [5, 0, 3]
      = .ok ((absIds 0 [5, 0, 3]).map DeltaItem.mk, 3) :=
  c4_delta_id_array_threading.1 [5, 0, 3] (by decide)

/-- Claim C5: an `AnnotationsDirectoryItem` whose header has
`class_annotations_offset = 0` resolves the class annotations to the
empty set without error: offset 0 always resolves to `ok ⟨[]⟩`
(whatever the context), any successful directory decode whose first
header field is 0 carries the empty class annotation set, and an
all-zero directory decodes successfully under every context. -/
theorem c5_zero_class_annotations_offset {V : Type} :
    (∀ dex : Dex V, dex.getAnnotationSetItem 0 = .ok ⟨[]⟩) ∧
    (∀ (dex : Dex V) (src : List Nat) (item : AnnotationsDirectoryItem V)
        (n : Nat),
      annotationsDirectoryItemTryFromCtx dex src = .ok (item, n) →
      readUint src = .ok (0, 4) →
      item.class_annotations = ⟨[]⟩) ∧
    (∀ dex : Dex V, annotationsDirectoryItemTryFromCtx dex
        [0, 0, 0, 0, 0, 0, 0, 0, 0, 0, 0, 0, 0, 0, 0, 0]
      = .ok (⟨⟨[]⟩, [], [], []⟩, 16)) := by
  refine ⟨?_, ?_, ?_⟩
  · intro dex
    rfl
  · intro dex src item n h hzero
    unfold annotationsDirectoryItemTryFromCtx at h
    rw [hzero] at h
    dsimp only at h
    cases h2 : readUint (src.drop 4) with
    | error e => rw [h2] at h; simp at h
    | ok p2 =>
      obtain ⟨fields_size, n2⟩ := p2
      rw [h2] at h
      dsimp only at h
      cases h3 : readUint (src.drop (4 + n2)) with
      | error e => rw [h3] at h; simp at h
      | ok p3 =>
        obtain ⟨method_size, n3⟩ := p3
        rw [h3] at h
        dsimp only at h
        cases h4 : readUint (src.drop (4 + n2 + n3)) with
        | error e => rw [h4] at h; simp at h
        | ok p4 =>
          obtain ⟨param_size, n4⟩ := p4
          rw [h4] at h
          dsimp only at h
          have hset : dex.getAnnotationSetItem 0 = .ok ⟨[]⟩ := rfl
          rw [hset] at h
          dsimp only at h
          cases h5 : greadVec (fieldAnnotationsTryFromCtx dex) fields_size src
              (4 + n2 + n3 + n4) with
          | error e => rw [h5] at h; simp at h
          | ok p5 =>
            obtain ⟨fa, off5⟩ := p5
            rw [h5] at h
            dsimp only at h
            cases h6 : greadVec (methodAnnotationsTryFromCtx dex) method_size
                src off5 with
            | error e => rw [h6] at h; simp at h
            | ok p6 =>
              obtain ⟨ma, off6⟩ := p6
              rw [h6] at h
              dsimp only at h
              cases h7 : greadVec (parameterAnnotationsTryFromCtx dex)
                  param_size src off6 with
              | error e => rw [h7] at h; simp at h
              | ok p7 =>
                obtain ⟨pa, off7⟩ := p7
                rw [h7] at h
                simp only [Except.ok.injEq, Prod.mk.injEq] at h
                rw [← h.1]
  · intro dex
    rfl

/-- Witness for C5: decoding an all-zero directory under the sample
context yields the empty class annotation set. -/
theorem c5_zero_class_annotations_offset_witness :
    (⟨⟨[]⟩, [], [], []⟩ : AnnotationsDirectoryItem Nat).class_annotations
      = ⟨[]⟩ :=
  c5_zero_class_annotations_offset.2.1 sampleDex
    [0, 0, 0, 0, 0, 0, 0, 0, 0, 0, 0, 0, 0, 0, 0, 0]
    ⟨⟨[]⟩, [], [], []⟩ 16 rfl rfl

/-- `Visibility::from_u8` maps every value other than 0, 1, 2 to none. -/
theorem visibility_fromU8_eq_none (b : Nat)
    (h0 : ¬b = 0) (h1 : ¬b = 1) (h2 : ¬b = 2) :
    Visibility.fromU8 b = none := by
  match b with
  | 0 => exact absurd rfl h0
  | 1 => exact absurd rfl h1
  | 2 => exact absurd rfl h2
  | n + 3 => rfl

/-- Claim C6: `AnnotationItem` decoding maps visibility byte 0 to
`Build`, 1 to `Runtime`, 2 to `System`, and fails with the InvalidIndex
error (`Error::InvalidId`) on every other leading byte, never
defaulting to an enumerated value. -/
theorem c6_visibility_mapping {V : Type} :
    (∀ (dex : Dex V) (rest : List Nat) (item : AnnotationItem V) (n : Nat),
      annotationItemTryFromCtx dex (0 :: rest) = .ok (item, n) →
      item.visibility = .Build) ∧
    (∀ (dex : Dex V) (rest : List Nat) (item : AnnotationItem V) (n : Nat),
      annotationItemTryFromCtx dex (1 :: rest) = .ok (item, n) →
      item.visibility = .Runtime) ∧
    (∀ (dex : Dex V) (rest : List Nat) (item : AnnotationItem V) (n : Nat),
      annotationItemTryFromCtx dex (2 :: rest) = .ok (item, n) →
      item.visibility = .System) ∧
    (∀ (dex : Dex V) (b : Nat) (rest : List Nat),
      ¬b = 0 → ¬b = 1 → ¬b = 2 →
      annotationItemTryFromCtx dex (b :: rest)
        = .error (.InvalidId "Invalid visibility for annotation")) := by
  have hvis : ∀ (dex : Dex V) (b : Nat) (v : Visibility) (rest : List Nat)
      (item : AnnotationItem V) (n : Nat),
      Visibility.fromU8 b = some v →
      annotationItemTryFromCtx dex (b :: rest) = .ok (item, n) →
      item.visibility = v := by
    intro dex b v rest item n hb h
    unfold annotationItemTryFromCtx at h
    dsimp only at h
    rw [hb] at h
    dsimp only at h
    cases ha : encodedAnnotationTryFromCtx dex rest with
    | error e => rw [ha] at h; simp at h
    | ok p =>
      obtain ⟨ann, m⟩ := p
      rw [ha] at h
      simp only [Except.ok.injEq, Prod.mk.injEq] at h
      rw [← h.1]
  refine ⟨fun dex rest item n h => hvis dex 0 .Build rest item n rfl h,
          fun dex rest item n h => hvis dex 1 .Runtime rest item n rfl h,
          fun dex rest item n h => hvis dex 2 .System rest item n rfl h,
          ?_⟩
  intro dex b rest h0 h1 h2
  unfold annotationItemTryFromCtx
  dsimp only
  rw [visibility_fromU8_eq_none b h0 h1 h2]

/-- Witness for C6: visibility byte 0 decodes to `Build` on a concrete
annotation item, and visibility byte 3 fails with the invalid-index
error. -/
theorem c6_visibility_mapping_witness :
    (⟨.Build, ⟨"LA;", []⟩⟩ : AnnotationItem Nat).visibility = .Build ∧
    annotationItemTryFromCtx sampleDex [3, 0, 0]
      = .error (.InvalidId "Invalid visibility for annotation") :=
  ⟨c6_visibility_mapping.1 sampleDex [0, 0] ⟨.Build, ⟨"LA;", []⟩⟩ 3 rfl,
   c6_visibility_mapping.2.2.2 sampleDex 3 [0, 0]
     (by decide) (by decide) (by decide)⟩

/-! ### Lemmas about the cache -/

theorem find?_key_unique_generic {K V : Type} [DecidableEq K]
    (l : List (K × V)) (k : K) (v : V)
    (hnd : (l.map Prod.fst).Nodup) (hmem : (k, v) ∈ l) :
    l.find? (fun p => decide (p.1 = k)) = some (k, v) := by
  induction l with
  | nil => simp at hmem
  | cons q rest ih =>
    obtain ⟨k', a⟩ := q
    simp only [List.map_cons, List.nodup_cons] at hnd
    rcases List.mem_cons.mp hmem with heq | hmem'
    · have hp := (Prod.mk.injEq k v k' a).mp heq
      have hk : k' = k := hp.1.symm
      have ha : a = v := hp.2.symm
      subst hk ha
      exact List.find?_cons_of_pos rest (by simp)
    · have hoff : k ∈ rest.map Prod.fst :=
        List.mem_map.mpr ⟨(k, v), hmem', rfl⟩
      have hk : ¬k' = k := fun hk => hnd.1 (hk ▸ hoff)
      rw [List.find?_cons_of_neg rest (by simp [hk])]
      exact ih hnd.2 hmem'

/-- Putting a key absent from the state `take cap acc.reverse` keeps
the entries equal to `take cap` of the reverse of the processed
prefix. -/
theorem lruPut_fresh_take {K V : Type} [DecidableEq K] (cap : Nat)
    (hcap : 0 < cap) (acc : List (K × V)) (k : K) (v : V)
    (hk : ∀ q ∈ acc, ¬q.1 = k) :
    lruPut (⟨cap, acc.reverse.take cap⟩ : LruCache K V) k v
      = ⟨cap, ((acc ++ [(k, v)]).reverse).take cap⟩ := by
  obtain ⟨capm, rfl⟩ : ∃ m, cap = m + 1 := ⟨cap - 1, by omega⟩
  have hfind : (acc.reverse.take (capm + 1)).find?
      (fun q => decide (q.1 = k)) = none := by
    apply List.find?_eq_none.mpr
    intro q hq
    have hqa : q ∈ acc := List.mem_reverse.mp (List.mem_of_mem_take hq)
    simp [hk q hqa]
  have hrev : (acc ++ [(k, v)]).reverse = (k, v) :: acc.reverse := by
    rw [List.reverse_append]
    rfl
  unfold lruPut
  rw [hfind]
  simp only [Option.isSome_none, Bool.false_eq_true, if_false]
  rw [hrev, List.take_succ_cons]
  by_cases h2 : (acc.reverse.take (capm + 1)).length < capm + 1
  · rw [if_pos h2]
    have hlen : acc.reverse.length ≤ capm := by
      rw [List.length_take] at h2
      omega
    rw [List.take_of_length_le (by omega), List.take_of_length_le hlen]
  · rw [if_neg h2]
    have hlen : capm + 1 ≤ acc.reverse.length := by
      rw [List.length_take] at h2
      omega
    have htake : (acc.reverse.take (capm + 1)).dropLast = acc.reverse.take capm := by
      simp only [List.dropLast_eq_take, List.take_take, List.length_take]
      congr 1
      omega
    rw [htake]

/-- Folding puts of pairwise-fresh keys over an initially empty cache
leaves the most recent `cap` pairs, most recent first. -/
theorem lru_foldPuts_entries {K V : Type} [DecidableEq K] (cap : Nat)
    (hcap : 0 < cap) :
    ∀ (pairs acc : List (K × V)),
      ((acc ++ pairs).map Prod.fst).Nodup →
      List.foldl (fun c p => lruPut c p.1 p.2)
        (⟨cap, acc.reverse.take cap⟩ : LruCache K V) pairs
        = ⟨cap, ((acc ++ pairs).reverse).take cap⟩ := by
  intro pairs
  induction pairs with
  | nil => intro acc _; simp
  | cons p ps ih =>
    intro acc hnd
    obtain ⟨k, v⟩ := p
    rw [List.foldl_cons]
    have hk : ∀ q ∈ acc, ¬q.1 = k := by
      intro q hq hqk
      have h1 : k ∈ acc.map Prod.fst := List.mem_map.mpr ⟨q, hq, hqk⟩
      have h2 := hnd
      rw [List.map_append, List.nodup_append] at h2
      exact h2.2.2 h1 (by simp)
    rw [lruPut_fresh_take cap hcap acc k v hk]
    have hassoc : acc ++ (k, v) :: ps = (acc ++ [(k, v)]) ++ ps := by simp
    rw [hassoc]
    exact ih (acc ++ [(k, v)]) (by rw [← hassoc]; exact hnd)

theorem cacheGet_fst {K V : Type} [DecidableEq K] (c : Nat) (heap : Heap K V)
    (k : K) :
    (cacheGet c heap k).1 = (lruGet (heap c) k).1 := rfl

theorem cachePuts_at {K V : Type} [DecidableEq K] (c : Nat) :
    ∀ (pairs : List (K × V)) (heap : Heap K V),
      cachePuts c heap pairs c
        = List.foldl (fun s p => lruPut s p.1 p.2) (heap c) pairs := by
  intro pairs
  induction pairs with
  | nil => intro heap; rfl
  | cons p ps ih =>
    intro heap
    unfold cachePuts
    rw [List.foldl_cons, List.foldl_cons]
    have hstep := ih (cachePut c heap p.1 p.2)
    unfold cachePuts at hstep
    rw [hstep]
    have : cachePut c heap p.1 p.2 c = lruPut (heap c) p.1 p.2 := if_pos rfl
    rw [this]

/-- Claim C7: constructing a cache with capacity `cap` and inserting
`cap + 1` distinct keys through a handle evicts the first-inserted
(least recently accessed) key: a subsequent get of that key misses,
while a get of every later (still resident) key returns its stored
value. -/
theorem c7_lru_eviction {K V : Type} [DecidableEq K] (cap : Nat)
    (hcap : 0 < cap) (a : Nat) (heap0 : Heap K V) (p0 : K × V)
    (rest : List (K × V))
    (hnodup : ((p0 :: rest).map Prod.fst).Nodup)
    (hlen : (p0 :: rest).length = cap + 1) :
    (cacheGet a (cachePuts a (cacheNew heap0 a cap) (p0 :: rest)) p0.1).1
      = none ∧
    ∀ p ∈ rest,
      (cacheGet a (cachePuts a (cacheNew heap0 a cap) (p0 :: rest)) p.1).1
        = some p.2 := by
  have hrestlen : rest.length = cap := by simpa using hlen
  have hstore : cachePuts a (cacheNew heap0 a cap) (p0 :: rest) a
      = ⟨cap, rest.reverse⟩ := by
    rw [cachePuts_at]
    have hnew : cacheNew heap0 a cap a = ⟨cap, []⟩ := if_pos rfl
    rw [hnew]
    have h0 : (⟨cap, []⟩ : LruCache K V)
        = ⟨cap, (([] : List (K × V)).reverse).take cap⟩ := by simp
    rw [h0, lru_foldPuts_entries cap hcap (p0 :: rest) [] (by simpa using hnodup)]
    congr 1
    rw [List.nil_append, List.reverse_cons]
    have hrl : rest.reverse.length = cap := by simpa using hrestlen
    rw [← hrl, List.take_left]
  constructor
  · rw [cacheGet_fst, hstore]
    unfold lruGet
    have hfind : (rest.reverse).find? (fun q => decide (q.1 = p0.1)) = none := by
      apply List.find?_eq_none.mpr
      intro q hq hq2
      have hqr : q ∈ rest := List.mem_reverse.mp hq
      have hmem : p0.1 ∈ rest.map Prod.fst :=
        List.mem_map.mpr ⟨q, hqr, by simpa using hq2⟩
      simp only [List.map_cons, List.nodup_cons] at hnodup
      exact hnodup.1 hmem
    rw [hfind]
  · intro p hp
    obtain ⟨k, v⟩ := p
    rw [cacheGet_fst, hstore]
    unfold lruGet
    have hnd : (rest.reverse.map Prod.fst).Nodup := by
      rw [List.map_reverse, List.nodup_reverse]
      simp only [List.map_cons, List.nodup_cons] at hnodup
      exact hnodup.2
    rw [find?_key_unique_generic rest.reverse k v hnd (List.mem_reverse.mpr hp)]

/-- After a put, a get of the same key through the same store hits:
the pair sits at the front in every branch of `lruPut`. -/
theorem lruGet_after_put {K V : Type} [DecidableEq K] (s : LruCache K V)
    (k : K) (v : V) :
    (lruGet (lruPut s k v) k).1 = some v := by
  have hcons : ∀ (cap : Nat) (tail : List (K × V)),
      (lruGet (⟨cap, (k, v) :: tail⟩ : LruCache K V) k).1 = some v := by
    intro cap tail
    unfold lruGet
    rw [List.find?_cons_of_pos tail (by simp)]
  unfold lruPut
  by_cases h1 : (s.entries.find? (fun p => decide (p.1 = k))).isSome
  · rw [if_pos h1]
    exact hcons _ _
  · rw [if_neg h1]
    by_cases h2 : s.entries.length < s.cap
    · rw [if_pos h2]
      exact hcons _ _
    · rw [if_neg h2]
      exact hcons _ _

/-- Claim C8: handles of the same construction share one backing
store — `Clone` copies the `Rc` pointer — so a put through either the
original handle or its clone is observed by a get through the other. -/
theorem c8_cache_shared_handles {K V : Type} [DecidableEq K]
    (heap : Heap K V) (c : Nat) (k : K) (v : V) :
    (cacheGet (cacheClone c) (cachePut c heap k v) k).1 = some v ∧
    (cacheGet c (cachePut (cacheClone c) heap k v) k).1 = some v := by
  have hclone : cacheClone c = c := rfl
  have hput : cachePut c heap k v c = lruPut (heap c) k v := if_pos rfl
  constructor
  · rw [hclone, cacheGet_fst, hput]
    exact lruGet_after_put (heap c) k v
  · rw [hclone, cacheGet_fst, hput]
    exact lruGet_after_put (heap c) k v

/-- A concrete heap of capacity-2 stores for the cache witnesses. -/
def sampleHeap : Heap Nat Nat := fun _ => ⟨2, []⟩

/-- Witness for C7: capacity 2, keys 1, 2, 3 — key 1 is evicted, keys
2 and 3 remain resident. -/
theorem c7_lru_eviction_witness :
    (cacheGet 0 (cachePuts 0 (cacheNew sampleHeap 0 2)
        ((1, 10) :: [(2, 20), (3, 30)])) (1, 10).1).1 = none ∧
    ∀ p ∈ [(2, 20), (3, 30)],
      (cacheGet 0 (cachePuts 0 (cacheNew sampleHeap 0 2)
          ((1, 10) :: [(2, 20), (3, 30)])) p.1).1 = some p.2 :=
  c7_lru_eviction 2 (by decide) 0 sampleHeap (1, 10) [(2, 20), (3, 30)]
    (by decide) (by decide)

/-- Witness for C8 at concrete handles and key. -/
theorem c8_cache_shared_handles_witness :
    (cacheGet (cacheClone 0) (cachePut 0 sampleHeap 5 7) 5).1 = some 7 ∧
    (cacheGet 0 (cachePut (cacheClone 0) sampleHeap 5 7) 5).1 = some 7 :=
  c8_cache_shared_handles sampleHeap 0 5 7

end DexParser
